import Mathlib

/-!
Formal model of the metric computation engine in `packages/browser-utils/src/metrics`
of the sharing-monitor repository: the reporter binder (`lib/bindReporter.ts`,
`lib/initMetric.ts`), the CLS session algorithm (`onCLS.ts`, with the TTFB
BFCache-restore path of `onTTFB.ts`), and the interaction aggregator
(`lib/interactions.ts`).

Numbers are modelled as rationals. JS `undefined` is modelled as `Option.none`.
The JS `Map` used by the aggregator is modelled by its get/set/delete/clear
semantics as a function `Nat → Option Interaction`.
-/

/-- The type `MetricType['rating']`: the three-way classification. -/
inductive Rating where
  | good
  | needsImprovement
  | poor
  deriving DecidableEq, Repr

/-- The type `MetricType['name']`: the closed set of metric kinds. -/
inductive MetricName where
  | CLS
  | FCP
  | FID
  | INP
  | LCP
  | TTFB
  deriving DecidableEq, Repr

/-- The pair `MetricRatingThresholds = [number, number]`: `.1` is `thresholds[0]`
(the good upper bound), `.2` is `thresholds[1]` (the needs-improvement upper
bound). -/
abbrev MetricRatingThresholds := ℚ × ℚ

/-- Function `getRating` from `lib/bindReporter.ts`: strict comparison against
`thresholds[1]` then `thresholds[0]`, defaulting to good. -/
def getRating (value : ℚ) (thresholds : MetricRatingThresholds) : Rating :=
  if value > thresholds.2 then .poor
  else if value > thresholds.1 then .needsImprovement
  else .good

/-- The fields of a Metric Record that the reporter binder reads or writes.
`id`, `entries` and `navigationType` are carried by the source object but are
not consulted by `bindReporter`; the CLS algorithm's `entries` bookkeeping is
modelled separately in `CLSState`. -/
structure Metric where
  name : MetricName
  value : ℚ
  rating : Rating
  delta : ℚ
  deriving DecidableEq, Repr

/-- The value/rating/delta initialization of `initMetric` (`lib/initMetric.ts`):
`value` is `-1` when the optional argument is absent, otherwise the given
value; `rating` starts at good and `delta` at 0. -/
def initMetric (name : MetricName) (value? : Option ℚ) : Metric :=
  { name := name, value := value?.getD (-1), rating := .good, delta := 0 }

/-- Constant `CLSThresholds = [0.1, 0.25]` from `onCLS.ts`. -/
def CLSThresholds : MetricRatingThresholds := (1/10, 1/4)

/-- Constant `TTFBThresholds = [800, 1800]` from `onTTFB.ts`. -/
def TTFBThresholds : MetricRatingThresholds := (800, 1800)

/-- The state closed over by the function returned from `bindReporter`:
the metric object (mutated in place by the algorithms) and the `prevValue`
variable (`none` models the still-undefined JS local). The local `delta` is
only ever written before being read, so it needs no slot of its own. -/
structure ReporterState where
  metric : Metric
  prevValue : Option ℚ
  deriving DecidableEq, Repr

/-- One invocation of the closure returned by `bindReporter`
(`lib/bindReporter.ts` lines 33-46). Returns the state after the call and the
metric object passed to the consumer callback, if the callback fired.
JS `prevValue || 0` is `Option.getD 0` (`0 || 0` and `undefined || 0` are both
`0`); `delta || prevValue === undefined` is `delta ≠ 0 ∨ prevValue = none`. -/
def bindReporterEmit (reportAllChanges : Bool) (thresholds : MetricRatingThresholds)
    (s : ReporterState) (forceReport : Bool) : ReporterState × Option Metric :=
  if s.metric.value > 0 then
    if forceReport || reportAllChanges then
      let delta := s.metric.value - s.prevValue.getD 0
      if delta ≠ 0 ∨ s.prevValue = none then
        let m : Metric :=
          { s.metric with delta := delta, rating := getRating s.metric.value thresholds }
        ({ metric := m, prevValue := some s.metric.value }, some m)
      else (s, none)
    else (s, none)
  else (s, none)

/-- One round of "mutate the record's value, then call the emit closure with
`forceReport = false` (or, equivalently, no argument)". Since only the value
current at call time is observable to `emit`, arbitrarily many mutations
between two calls are modelled by the last one. The second component
accumulates every metric object passed to the consumer callback. -/
def emitNoForceStep (reportAllChanges : Bool) (thresholds : MetricRatingThresholds)
    (acc : ReporterState × List Metric) (v : ℚ) : ReporterState × List Metric :=
  let s1 : ReporterState := { acc.1 with metric := { acc.1.metric with value := v } }
  let r := bindReporterEmit reportAllChanges thresholds s1 false
  (r.1, acc.2 ++ r.2.toList)

/-- A sequence of `emitNoForceStep` rounds starting from reporter state `s`
with no callbacks collected yet. -/
def runEmitsNoForce (reportAllChanges : Bool) (thresholds : MetricRatingThresholds)
    (s : ReporterState) (vals : List ℚ) : ReporterState × List Metric :=
  vals.foldl (emitNoForceStep reportAllChanges thresholds) (s, [])

/-- With `forceReport = false` and `reportAllChanges = false` a single emit
call never fires the callback and leaves the state unchanged. -/
theorem bindReporterEmit_noforce (thresholds : MetricRatingThresholds)
    (s : ReporterState) :
    bindReporterEmit false thresholds s false = (s, none) := by
  unfold bindReporterEmit
  split <;> simp

/-- C1: the claim asserts that a CLS record with value 0 can still be emitted
(the baseline "no layout shift" emission that `onCLS` schedules through
`setTimeout(report, 0)` on the fresh record `initMetric('CLS', 0)`). The code
evaluated at that input shows otherwise: `bindReporter`'s emit gates on
`metric.value > 0` with no CLS exception, so for the zero-value CLS record the
callback never fires, forced or not, whatever `reportAllChanges` is. This
contradicts `onCLS.ts`'s own stated purpose for the scheduled report (comment
at lines 119-120: guarantee the initial CLS value 0 is reported). -/
theorem c1_cls_zero_never_emitted (reportAllChanges forceReport : Bool) :
    (bindReporterEmit reportAllChanges CLSThresholds
      ⟨initMetric .CLS (some 0), none⟩ forceReport).2 = none := by
  simp [bindReporterEmit, initMetric]

/-- C2: on a BFCache `pageshow` restore, `onTTFB` does build a fresh record
`initMetric('TTFB', 0)` whose value is fixed at 0 without recomputation (first
conjunct) and calls `report(true)` on a freshly bound reporter — but the claim
that the consumer callback is then invoked once with that zero-value record
fails: the forced emission is dropped by the `metric.value > 0` gate (second
conjunct), contradicting `onTTFB.ts`'s own comment (line 85) that the restored
0ms value is force-reported. -/
theorem c2_ttfb_bfcache_zero_not_emitted (reportAllChanges : Bool) :
    (initMetric .TTFB (some 0)).value = 0 ∧
    (bindReporterEmit reportAllChanges TTFBThresholds
      ⟨initMetric .TTFB (some 0), none⟩ true).2 = none := by
  constructor
  · rfl
  · simp [bindReporterEmit, initMetric]

/-- C8: rating classification is a pure function of `(value, thresholds)`:
`value ≤ thresholds[0]` is good, `thresholds[0] < value ≤ thresholds[1]` is
needs-improvement, `value > thresholds[1]` is poor; at the boundaries, value
exactly `thresholds[0]` is good and exactly `thresholds[1]` is
needs-improvement, both comparisons in the code being strict `>`. -/
theorem c8_rating_classification (value : ℚ) (th : MetricRatingThresholds)
    (hth : th.1 ≤ th.2) :
    (value ≤ th.1 → getRating value th = .good) ∧
    (th.1 < value → value ≤ th.2 → getRating value th = .needsImprovement) ∧
    (th.2 < value → getRating value th = .poor) ∧
    getRating th.1 th = .good ∧
    (th.1 < th.2 → getRating th.2 th = .needsImprovement) := by
  unfold getRating
  refine ⟨fun h => ?_, fun h1 h2 => ?_, fun h => ?_, ?_, fun h => ?_⟩ <;>
    split_ifs <;> first | rfl | linarith

/-- C8 witness: at `value = 800` with the TTFB thresholds `[800, 1800]`, the
theorem's hypothesis holds and the boundary value rates good. -/
theorem c8_rating_classification_witness :
    TTFBThresholds.1 ≤ TTFBThresholds.2 ∧ getRating 800 TTFBThresholds = .good :=
  ⟨by decide, (c8_rating_classification 800 TTFBThresholds (by decide)).1 (by decide)⟩

/-- C9: a binder created with `reportAllChanges` false (or absent) never invokes
the callback across any sequence of emit calls that all pass `force = false`
(or no argument), no matter how the record's value is mutated between calls:
the inner branch guarding the callback requires `forceReport || reportAllChanges`. -/
theorem c9_never_emits_without_force_or_reportall (thresholds : MetricRatingThresholds)
    (m : Metric) (vals : List ℚ) :
    (runEmitsNoForce false thresholds ⟨m, none⟩ vals).2 = [] := by
  unfold runEmitsNoForce
  suffices h : ∀ (vals : List ℚ) (s : ReporterState) (acc : List Metric),
      (vals.foldl (emitNoForceStep false thresholds) (s, acc)).2 = acc by
    exact h vals ⟨m, none⟩ []
  intro vals
  induction vals with
  | nil => intro s acc; rfl
  | cons v vs ih =>
    intro s acc
    rw [List.foldl_cons]
    have hstep : emitNoForceStep false thresholds (s, acc) v
        = ({ s with metric := { s.metric with value := v } }, acc) := by
      simp [emitNoForceStep, bindReporterEmit_noforce]
    rw [hstep]
    exact ih _ acc

/-- A `layout-shift` performance entry as consumed by `handleEntries` in
`onCLS.ts`: shift magnitude `value`, `startTime`, and the `hadRecentInput`
flag marking expected, input-driven shifts. -/
structure LayoutShift where
  startTime : ℚ
  value : ℚ
  hadRecentInput : Bool
  deriving DecidableEq, Repr

/-- The mutable state of one `onCLS` activation: the open session
(`sessionValue`, `sessionEntries`) and the record fields the algorithm writes
(`metric.value`, `metric.entries`). -/
structure CLSState where
  sessionValue : ℚ
  sessionEntries : List LayoutShift
  metricValue : ℚ
  metricEntries : List LayoutShift
  deriving DecidableEq, Repr

/-- State right after `onCLS` activates: session empty and the fresh record
`initMetric('CLS', 0)` (value 0). -/
def clsInit : CLSState := ⟨0, [], 0, []⟩

/-- The per-entry body of the `forEach` in `handleEntries` (`onCLS.ts` lines
58-80): input-driven shifts are skipped; otherwise the entry is merged into
the open session when `sessionValue > 0`, the gap to the session's last entry
is `< 1000` and the distance to the session's first entry is `< 5000`
(both `?? 0` defaults modelled by `Option.getD 0`), else it seeds a new
session. -/
def clsStep (s : CLSState) (e : LayoutShift) : CLSState :=
  if e.hadRecentInput then s
  else
    let firstSessionEntry := s.sessionEntries.head?
    let lastSessionEntry := s.sessionEntries.getLast?
    if s.sessionValue > 0 ∧
        e.startTime - ((lastSessionEntry.map LayoutShift.startTime).getD 0) < 1000 ∧
        e.startTime - ((firstSessionEntry.map LayoutShift.startTime).getD 0) < 5000 then
      { s with sessionValue := s.sessionValue + e.value,
               sessionEntries := s.sessionEntries ++ [e] }
    else
      { s with sessionValue := e.value, sessionEntries := [e] }

/-- One call of `handleEntries` (`onCLS.ts` lines 57-88): process the whole
batch, then update the record — with an emission attempt, `report()` — exactly
when the session value now strictly exceeds the record's value. The boolean
is `true` iff that emission attempt happened. -/
def handleEntries (s : CLSState) (entries : List LayoutShift) : CLSState × Bool :=
  let s1 := entries.foldl clsStep s
  if s1.sessionValue > s1.metricValue then
    ({ s1 with metricValue := s1.sessionValue, metricEntries := s1.sessionEntries }, true)
  else (s1, false)

/-- A sequence of `handleEntries` calls, one per delivered batch. -/
def runCLS (s : CLSState) (batches : List (List LayoutShift)) : CLSState :=
  batches.foldl (fun t es => (handleEntries t es).1) s

/-- Adjacency hypothesis used by C3: consecutive samples are in temporal order
with gaps that are nonnegative and under 1000ms. -/
def gapOk (a b : LayoutShift) : Prop :=
  a.startTime ≤ b.startTime ∧ b.startTime - a.startTime < 1000

lemma sub_lt_bound {a b c : ℚ} (h1 : a < c) (h2 : 0 ≤ b) : a - b < c :=
  lt_of_le_of_lt (sub_le_self a h2) h1

lemma clsStep_metricValue (s : CLSState) (e : LayoutShift) :
    (clsStep s e).metricValue = s.metricValue := by
  unfold clsStep
  split
  · rfl
  · dsimp only
    split <;> rfl

lemma foldl_clsStep_metricValue (l : List LayoutShift) (s : CLSState) :
    (l.foldl clsStep s).metricValue = s.metricValue := by
  induction l generalizing s with
  | nil => rfl
  | cons e t ih => rw [List.foldl_cons, ih, clsStep_metricValue]

lemma clsStep_merge (s : CLSState) (e l f : LayoutShift)
    (hni : e.hadRecentInput = false)
    (hpos : 0 < s.sessionValue)
    (hlast : s.sessionEntries.getLast? = some l)
    (hfirst : s.sessionEntries.head? = some f)
    (hgap : e.startTime - l.startTime < 1000)
    (hspan : e.startTime - f.startTime < 5000) :
    clsStep s e = { s with sessionValue := s.sessionValue + e.value,
                           sessionEntries := s.sessionEntries ++ [e] } := by
  unfold clsStep
  rw [hni, hlast, hfirst]
  simp only [Bool.false_eq_true, if_false, Option.map_some', Option.getD_some]
  rw [if_pos ⟨hpos, hgap, hspan⟩]

lemma clsStep_new_session (s : CLSState) (e l : LayoutShift)
    (hni : e.hadRecentInput = false)
    (hlast : s.sessionEntries.getLast? = some l)
    (hgap : 1000 ≤ e.startTime - l.startTime) :
    clsStep s e = { s with sessionValue := e.value, sessionEntries := [e] } := by
  unfold clsStep
  rw [hni, hlast]
  simp only [Bool.false_eq_true, if_false, Option.map_some', Option.getD_some]
  rw [if_neg]
  rintro ⟨-, h2, -⟩
  linarith

lemma clsStep_reset_of_nonpos (s : CLSState) (e : LayoutShift)
    (hni : e.hadRecentInput = false)
    (hsv : s.sessionValue ≤ 0) :
    clsStep s e = { s with sessionValue := e.value, sessionEntries := [e] } := by
  unfold clsStep
  rw [hni]
  simp only [Bool.false_eq_true, if_false]
  rw [if_neg]
  rintro ⟨h1, -, -⟩
  exact absurd h1 (not_lt.mpr hsv)

lemma cls_fold_sum (e0 : LayoutShift) (l : List LayoutShift) :
    ∀ (s : CLSState) (prev h0 : LayoutShift),
      List.Chain' gapOk (prev :: l) →
      (∀ e ∈ l, e.hadRecentInput = false) →
      (∀ e ∈ l, 0 ≤ e.value) →
      (∀ e ∈ l, e.startTime - e0.startTime < 5000) →
      0 ≤ s.sessionValue →
      s.sessionEntries.getLast? = some prev →
      s.sessionEntries.head? = some h0 →
      e0.startTime ≤ h0.startTime →
      e0.startTime ≤ prev.startTime →
      (l.foldl clsStep s).sessionValue = s.sessionValue + (l.map LayoutShift.value).sum := by
  induction l with
  | nil =>
    intro s prev h0 _ _ _ _ _ _ _ _ _
    simp
  | cons e t ih =>
    intro s prev h0 hchain hni hnn hspan hsv hlast hhead he0h he0p
    obtain ⟨hpe, hchain'⟩ := List.chain'_cons.mp hchain
    have hmem : e ∈ e :: t := List.mem_cons_self e t
    rcases lt_or_eq_of_le hsv with hpos | hzero
    · have hspan' : e.startTime - h0.startTime < 5000 := by
        have h1 := hspan e hmem
        linarith
      rw [List.foldl_cons,
        clsStep_merge s e prev h0 (hni e hmem) hpos hlast hhead hpe.2 hspan']
      have hrec := ih
        { s with sessionValue := s.sessionValue + e.value,
                 sessionEntries := s.sessionEntries ++ [e] }
        e h0 hchain'
        (fun x hx => hni x (List.mem_cons_of_mem e hx))
        (fun x hx => hnn x (List.mem_cons_of_mem e hx))
        (fun x hx => hspan x (List.mem_cons_of_mem e hx))
        (add_nonneg hsv (hnn e hmem))
        (List.getLast?_concat _)
        (by rw [List.head?_append, hhead]; rfl)
        he0h
        (le_trans he0p hpe.1)
      rw [hrec]
      simp only [List.map_cons, List.sum_cons]
      ring
    · rw [List.foldl_cons, clsStep_reset_of_nonpos s e (hni e hmem) (le_of_eq hzero.symm)]
      have hrec := ih
        { s with sessionValue := e.value, sessionEntries := [e] }
        e e hchain'
        (fun x hx => hni x (List.mem_cons_of_mem e hx))
        (fun x hx => hnn x (List.mem_cons_of_mem e hx))
        (fun x hx => hspan x (List.mem_cons_of_mem e hx))
        (hnn e hmem)
        rfl
        rfl
        (le_trans he0p hpe.1)
        (le_trans he0p hpe.1)
      rw [hrec]
      simp only [List.map_cons, List.sum_cons]
      rw [← hzero]
      ring

/-- C3: for every sequence of non-input layout-shift samples with pairwise
gaps that are nonnegative and < 1000ms and total span from the first sample
< 5000ms, one `handleEntries` call from the fresh state yields a record value
equal to the sum of the shift magnitudes (first conjunct); and a sample
arriving more than 1000ms after the session's last sample always starts a new
session holding exactly that sample, with the session value reset to its own
magnitude (second conjunct). -/
theorem c3_cls_session_sum_and_reset (entries : List LayoutShift)
    (hni : ∀ e ∈ entries, e.hadRecentInput = false)
    (hnn : ∀ e ∈ entries, 0 ≤ e.value)
    (hchain : List.Chain' gapOk entries)
    (hspan : ∀ e0, entries.head? = some e0 → ∀ e ∈ entries, e.startTime - e0.startTime < 5000) :
    (handleEntries clsInit entries).1.metricValue = (entries.map LayoutShift.value).sum ∧
    (∀ (s : CLSState) (e l : LayoutShift), e.hadRecentInput = false →
      s.sessionEntries.getLast? = some l → 1000 < e.startTime - l.startTime →
      (clsStep s e).sessionValue = e.value ∧ (clsStep s e).sessionEntries = [e]) := by
  constructor
  · have hsum : (entries.foldl clsStep clsInit).sessionValue
        = (entries.map LayoutShift.value).sum := by
      cases entries with
      | nil => simp [clsInit]
      | cons e0 rest =>
        have hstep : clsStep clsInit e0
            = { clsInit with sessionValue := e0.value, sessionEntries := [e0] } :=
          clsStep_reset_of_nonpos clsInit e0 (hni e0 (List.mem_cons_self e0 rest)) le_rfl
        rw [List.foldl_cons, hstep]
        have hrec := cls_fold_sum e0 rest
          { clsInit with sessionValue := e0.value, sessionEntries := [e0] }
          e0 e0 hchain
          (fun x hx => hni x (List.mem_cons_of_mem e0 hx))
          (fun x hx => hnn x (List.mem_cons_of_mem e0 hx))
          (fun x hx => hspan e0 rfl x (List.mem_cons_of_mem e0 hx))
          (hnn e0 (List.mem_cons_self e0 rest))
          rfl rfl le_rfl le_rfl
        rw [hrec]
        simp [List.map_cons, List.sum_cons]
    have hnonneg : 0 ≤ (entries.map LayoutShift.value).sum := by
      apply List.sum_nonneg
      intro x hx
      obtain ⟨e, he, rfl⟩ := List.mem_map.mp hx
      exact hnn e he
    unfold handleEntries
    have hmv : (entries.foldl clsStep clsInit).metricValue = 0 :=
      foldl_clsStep_metricValue entries clsInit
    dsimp only
    split
    · rw [hsum]
    · rename_i hle
      rw [hmv, hsum] at hle
      rw [hmv]
      exact (le_antisymm (not_lt.mp hle) hnonneg).symm
  · intro s e l hni' hlast' hgap'
    rw [clsStep_new_session s e l hni' hlast' (by linarith)]
    exact ⟨rfl, rfl⟩

/-- C3 witness: the spec's own scenario scaled to whole numbers — three
non-input shifts of magnitudes 5, 3, 2 at t = 0, 500, 900: all hypotheses
hold and the record value after one `handleEntries` call is 5 + 3 + 2;
additionally the new-session conjunct instantiated at a session whose last
sample is at t = 0 and a sample at t = 1500 of magnitude 7. -/
theorem c3_cls_session_sum_and_reset_witness :
    (∀ e ∈ [(⟨0, 5, false⟩ : LayoutShift), ⟨500, 3, false⟩, ⟨900, 2, false⟩],
        e.hadRecentInput = false ∧ 0 ≤ e.value) ∧
    List.Chain' gapOk [(⟨0, 5, false⟩ : LayoutShift), ⟨500, 3, false⟩, ⟨900, 2, false⟩] ∧
    (handleEntries clsInit
        [(⟨0, 5, false⟩ : LayoutShift), ⟨500, 3, false⟩, ⟨900, 2, false⟩]).1.metricValue
      = 5 + 3 + 2 ∧
    (clsStep ⟨5, [⟨0, 5, false⟩], 0, []⟩ ⟨1500, 7, false⟩).sessionValue = 7 := by
  have hchain :
      List.Chain' gapOk [(⟨0, 5, false⟩ : LayoutShift), ⟨500, 3, false⟩, ⟨900, 2, false⟩] := by
    refine List.chain'_cons.mpr ⟨⟨by decide, sub_lt_bound (by decide) (by decide)⟩,
      List.chain'_cons.mpr ⟨⟨by decide, sub_lt_bound (by decide) (by decide)⟩, ?_⟩⟩
    simp [List.chain'_singleton]
  have hspan : ∀ e0 : LayoutShift,
      [(⟨0, 5, false⟩ : LayoutShift), ⟨500, 3, false⟩, ⟨900, 2, false⟩].head? = some e0 →
      ∀ e ∈ [(⟨0, 5, false⟩ : LayoutShift), ⟨500, 3, false⟩, ⟨900, 2, false⟩],
        e.startTime - e0.startTime < 5000 := by
    intro e0 he0 e he
    simp only [List.head?_cons, Option.some.injEq] at he0
    subst he0
    fin_cases he <;>
      exact sub_lt_bound (by decide) (by decide)
  have h := c3_cls_session_sum_and_reset
    [(⟨0, 5, false⟩ : LayoutShift), ⟨500, 3, false⟩, ⟨900, 2, false⟩]
    (by simp) (by simp) hchain hspan
  refine ⟨by simp, hchain, ?_, ?_⟩
  · rw [h.1]
    simp [add_assoc]
  · exact (h.2 ⟨5, [⟨0, 5, false⟩], 0, []⟩ ⟨1500, 7, false⟩ ⟨0, 5, false⟩ rfl rfl
      (by simp only [sub_zero]; decide)).1

/-- C4 counterexample: a session holding one non-input sample of magnitude 1
at t = 0 (positive cumulative value, span well under 5000ms); a non-input
sample of magnitude 2 arriving at t = 1000 — exactly 1000ms after the
session's last sample — is NOT merged into the session as the claim states:
the gap check is strict (`< 1000`), so a new session is started holding only
the new sample, with value 2 rather than 1 + 2. -/
theorem c4_exact_gap_counterexample :
    0 < (clsStep clsInit ⟨0, 1, false⟩).sessionValue ∧
    (clsStep (clsStep clsInit ⟨0, 1, false⟩) ⟨1000, 2, false⟩).sessionValue = 2 ∧
    (clsStep (clsStep clsInit ⟨0, 1, false⟩) ⟨1000, 2, false⟩).sessionEntries
      = [⟨1000, 2, false⟩] ∧
    ¬((2:ℚ) = 1 + 2) := by
  refine ⟨?_, ?_, ?_, by norm_num⟩ <;>
    norm_num [clsStep, clsInit]

/-- C4 corrected: a CLS session extends (the incoming non-input sample is
merged, its magnitude added to `sessionValue`) only while the gap to the
session's last sample is strictly less than 1000ms, the span from the
session's first sample is under 5000ms and the cumulative value is positive;
a sample arriving exactly 1000ms after the session's last sample starts a new
session seeded with that sample alone. -/
theorem c4_session_merge_boundary (s : CLSState) (e l f : LayoutShift)
    (hni : e.hadRecentInput = false)
    (hpos : 0 < s.sessionValue)
    (hlast : s.sessionEntries.getLast? = some l)
    (hfirst : s.sessionEntries.head? = some f)
    (hspan : e.startTime - f.startTime < 5000) :
    (e.startTime - l.startTime < 1000 →
      (clsStep s e).sessionValue = s.sessionValue + e.value ∧
      (clsStep s e).sessionEntries = s.sessionEntries ++ [e]) ∧
    (e.startTime - l.startTime = 1000 →
      (clsStep s e).sessionValue = e.value ∧
      (clsStep s e).sessionEntries = [e]) := by
  constructor
  · intro hgap
    rw [clsStep_merge s e l f hni hpos hlast hfirst hgap hspan]
    exact ⟨rfl, rfl⟩
  · intro hgap
    rw [clsStep_new_session s e l hni hlast (le_of_eq hgap.symm)]
    exact ⟨rfl, rfl⟩

/-- C4 witness: for the session holding one sample of magnitude 1 at t = 0, a
non-input sample of magnitude 2 at t = 500 (gap 500 < 1000, span < 5000) is
merged, giving session value 1 + 2; and one at exactly t = 1000 resets to 2. -/
theorem c4_session_merge_boundary_witness :
    0 < (1:ℚ) ∧
    (clsStep ⟨1, [⟨0, 1, false⟩], 0, []⟩ ⟨500, 2, false⟩).sessionValue = 1 + 2 ∧
    (clsStep ⟨1, [⟨0, 1, false⟩], 0, []⟩ ⟨1000, 2, false⟩).sessionValue = 2 := by
  have h := c4_session_merge_boundary ⟨1, [⟨0, 1, false⟩], 0, []⟩ ⟨500, 2, false⟩
    ⟨0, 1, false⟩ ⟨0, 1, false⟩ rfl (by decide) rfl rfl
    (by simp only [sub_zero]; decide)
  have h2 := c4_session_merge_boundary ⟨1, [⟨0, 1, false⟩], 0, []⟩ ⟨1000, 2, false⟩
    ⟨0, 1, false⟩ ⟨0, 1, false⟩ rfl (by decide) rfl rfl
    (by simp only [sub_zero]; decide)
  exact ⟨by decide, (h.1 (by simp only [sub_zero]; decide)).1,
    (h2.2 (by simp only [sub_zero])).1⟩

/-- C5 counterexample: one `handleEntries` batch holding a non-input shift of
magnitude 2 at t = 0 and one of magnitude 1 at t = 2000 (a > 1000ms gap, so
the value-2 session closes mid-batch). The record is only updated after the
whole batch, so it ends at 1 while a session of value 2 was observed in the
epoch — refuting "after every call the record holds the maximum sessionValue
over all sessions observed so far". -/
theorem c5_mid_batch_session_counterexample :
    (handleEntries clsInit [⟨0, 2, false⟩, ⟨2000, 1, false⟩]).1.metricValue = 1 ∧
    (clsStep clsInit ⟨0, 2, false⟩).sessionValue = 2 ∧
    ¬((2:ℚ) ≤ 1) := by
  refine ⟨?_, by norm_num [clsStep, clsInit], by norm_num⟩
  norm_num [handleEntries, clsStep, clsInit]

/-- C5 corrected: over any sequence of `handleEntries` calls the record value
is monotonically non-decreasing, and each call updates it — with an emission
attempt — exactly when the session value at the end of that call strictly
exceeds the record's current value; hence after every call the record holds
the maximum of its previous value and that end-of-call session value (not, in
general, the maximum over every session observed: a session that closes in
the middle of a batch is skipped — see the counterexample). -/
theorem c5_record_monotone_batch_max :
    (∀ (s : CLSState) (entries : List LayoutShift),
      (handleEntries s entries).1.metricValue
        = max s.metricValue (entries.foldl clsStep s).sessionValue ∧
      (handleEntries s entries).2
        = decide (s.metricValue < (entries.foldl clsStep s).sessionValue) ∧
      s.metricValue ≤ (handleEntries s entries).1.metricValue) ∧
    (∀ (s : CLSState) (batches : List (List LayoutShift)),
      s.metricValue ≤ (runCLS s batches).metricValue) := by
  have hone : ∀ (s : CLSState) (entries : List LayoutShift),
      (handleEntries s entries).1.metricValue
        = max s.metricValue (entries.foldl clsStep s).sessionValue ∧
      (handleEntries s entries).2
        = decide (s.metricValue < (entries.foldl clsStep s).sessionValue) := by
    intro s entries
    unfold handleEntries
    have hmv : (entries.foldl clsStep s).metricValue = s.metricValue :=
      foldl_clsStep_metricValue entries s
    dsimp only
    split
    · rename_i hlt
      rw [hmv] at hlt
      constructor
      · exact (max_eq_right (le_of_lt hlt)).symm
      · simp [hlt]
    · rename_i hle
      rw [hmv] at hle
      constructor
      · exact hmv.trans (max_eq_left (not_lt.mp hle)).symm
      · simp [not_lt.mp hle, not_lt]
  have hstep : ∀ (s : CLSState) (entries : List LayoutShift),
      s.metricValue ≤ (handleEntries s entries).1.metricValue := by
    intro s entries
    rw [(hone s entries).1]
    exact le_max_left _ _
  refine ⟨fun s entries => ⟨(hone s entries).1, (hone s entries).2, hstep s entries⟩, ?_⟩
  intro s batches
  induction batches generalizing s with
  | nil => exact le_refl _
  | cons b bs ih =>
    calc s.metricValue ≤ (handleEntries s b).1.metricValue := hstep s b
      _ ≤ (runCLS (handleEntries s b).1 bs).metricValue := ih _

/-- A `PerformanceEventTiming` entry as consumed by `processInteractionEntry`
(`lib/interactions.ts`): the `interactionId` (`0` models the JS-falsy "no
interaction id" case), whether `entryType === 'first-input'`, the `duration`
and the `startTime`. -/
structure EventEntry where
  interactionId : Nat
  isFirstInput : Bool
  duration : ℚ
  startTime : ℚ
  deriving DecidableEq, Repr

/-- An `Interaction` retained by the aggregator: grouping id, the maximum
observed duration (`latency`) and the merged entries. -/
structure Interaction where
  id : Nat
  latency : ℚ
  entries : List EventEntry
  deriving DecidableEq, Repr

/-- Constant `MAX_INTERACTIONS_TO_CONSIDER = 10`. -/
def MAX_INTERACTIONS_TO_CONSIDER : Nat := 10

/-- The comparator `(a, b) => b.latency - a.latency` handed to
`longestInteractionList.sort`: a stable sort that keeps `a` before `b`
exactly when `a.latency ≥ b.latency` (larger latencies first). -/
def latencyDesc (a b : Interaction) : Bool := decide (b.latency ≤ a.latency)

/-- The aggregator's module state: `longestInteractionList` and
`longestInteractionMap`. The JS `Map` (only get/set/delete/clear are used) is
modelled as a function from ids. In the source the map stores references to
the very objects held in the list, so an in-place mutation of an interaction
is modelled by updating the value on both sides. -/
structure InteractionState where
  longestInteractionList : List Interaction
  longestInteractionMap : Nat → Option Interaction

/-- Both structures start out empty. -/
def emptyInteractions : InteractionState :=
  { longestInteractionList := [], longestInteractionMap := fun _ => none }

/-- Function `resetInteractions` (`lib/interactions.ts` lines 59-66): clear the list
and the map. The accompanying rebasing of `prevInteractionCount` only affects
the count handed to `estimateP98LongestInteraction`, which takes it as a
parameter here. -/
def resetInteractions : InteractionState := emptyInteractions

/-- The in-place update of an existing interaction (lines 125-134): replace
entries and latency when the new sample lasts strictly longer; append the
sample when it has the same duration and the same start time as the recorded
first entry (`entries[0]?.startTime`); otherwise leave it unchanged. -/
def mergeEntry (i : Interaction) (e : EventEntry) : Interaction :=
  if i.latency < e.duration then
    { i with entries := [e], latency := e.duration }
  else if e.duration = i.latency ∧
      (i.entries.head?.map EventEntry.startTime) = some e.startTime then
    { i with entries := i.entries ++ [e] }
  else i

/-- Step 6 of `processInteractionEntry`: merge into the existing interaction
found in the map, or create a new interaction and add it to the map and the
end of the list. -/
def admitEntry (s : InteractionState) (e : EventEntry) : InteractionState :=
  match s.longestInteractionMap e.interactionId with
  | some i =>
      { longestInteractionList :=
          s.longestInteractionList.map fun j => if j.id = i.id then mergeEntry i e else j,
        longestInteractionMap :=
          fun k => if k = i.id then some (mergeEntry i e) else s.longestInteractionMap k }
  | none =>
      { longestInteractionList :=
          s.longestInteractionList ++ [⟨e.interactionId, e.duration, [e]⟩],
        longestInteractionMap :=
          fun k => if k = e.interactionId then some ⟨e.interactionId, e.duration, [e]⟩
            else s.longestInteractionMap k }

/-- Step 7 of `processInteractionEntry`: re-sort descending by latency, and
when more than 10 interactions remain, truncate (`splice(10)`) and delete
every evicted interaction's id from the map. -/
def sortAndTrim (s : InteractionState) : InteractionState :=
  let sorted := s.longestInteractionList.mergeSort latencyDesc
  if MAX_INTERACTIONS_TO_CONSIDER < sorted.length then
    { longestInteractionList := sorted.take MAX_INTERACTIONS_TO_CONSIDER,
      longestInteractionMap :=
        fun k =>
          if (sorted.drop MAX_INTERACTIONS_TO_CONSIDER).any (fun i => decide (i.id = k)) then
            none
          else s.longestInteractionMap k }
  else { s with longestInteractionList := sorted }

/-- Function `processInteractionEntry` (lines 101-155) for one entry: skip entries
whose `interactionId` is falsy and whose type is not `first-input`; process
the entry when it belongs to an existing interaction, the list is not full,
or it lasts longer than the shortest retained latency (`?? 0`). -/
def processInteractionEntry (s : InteractionState) (e : EventEntry) : InteractionState :=
  if e.interactionId = 0 ∧ e.isFirstInput = false then s
  else if (s.longestInteractionMap e.interactionId).isSome
      ∨ s.longestInteractionList.length < MAX_INTERACTIONS_TO_CONSIDER
      ∨ ((s.longestInteractionList.getLast?.map Interaction.latency).getD 0 < e.duration) then
    sortAndTrim (admitEntry s e)
  else s

/-- One aggregator operation: ingest one entry or reset wholesale. -/
inductive AggregatorOp where
  | process (e : EventEntry)
  | reset

/-- Run one operation. -/
def stepAggregator (s : InteractionState) : AggregatorOp → InteractionState
  | .process e => processInteractionEntry s e
  | .reset => resetInteractions

/-- Run a sequence of operations from the empty startup state. -/
def runAggregator (ops : List AggregatorOp) : InteractionState :=
  ops.foldl stepAggregator emptyInteractions

/-- Function `estimateP98LongestInteraction` (lines 73-81), over the current list and
the value of `getInteractionCountForNavigation()`. The candidate index is the
JS number `min(longestInteractionList.length - 1, floor(count / 50))` — an
`Int`, since `length - 1` is `-1` on an empty list; JS array indexing outside
`[0, length)` yields `undefined`, i.e. `none`. -/
def estimateP98LongestInteraction (list : List Interaction) (count : Nat) :
    Option Interaction :=
  let candidateInteractionIndex : Int :=
    min ((list.length : Int) - 1) ((count / 50 : Nat) : Int)
  if h : 0 ≤ candidateInteractionIndex ∧ candidateInteractionIndex.toNat < list.length then
    some (list.get ⟨candidateInteractionIndex.toNat, h.2⟩)
  else none

/-- The list/map synchronization invariant: retained ids are duplicate-free
and the map holds exactly the interactions of the list, keyed by their ids. -/
def InteractionsInv (s : InteractionState) : Prop :=
  (s.longestInteractionList.map Interaction.id).Nodup ∧
  ∀ k i, s.longestInteractionMap k = some i ↔
    (i ∈ s.longestInteractionList ∧ i.id = k)

/-- The full aggregator invariant: at most 10 retained interactions, sorted
descending by latency, with the list and the map in sync. -/
def AggregatorInv (s : InteractionState) : Prop :=
  s.longestInteractionList.length ≤ MAX_INTERACTIONS_TO_CONSIDER ∧
  s.longestInteractionList.Pairwise (fun a b => b.latency ≤ a.latency) ∧
  InteractionsInv s

lemma mergeEntry_id (i : Interaction) (e : EventEntry) : (mergeEntry i e).id = i.id := by
  unfold mergeEntry
  split_ifs <;> rfl

lemma latencyDesc_trans : ∀ (a b c : Interaction),
    latencyDesc a b = true → latencyDesc b c = true → latencyDesc a c = true := by
  intro a b c hab hbc
  simp only [latencyDesc, decide_eq_true_eq] at hab hbc ⊢
  exact le_trans hbc hab

lemma latencyDesc_total : ∀ (a b : Interaction),
    (latencyDesc a b || latencyDesc b a) = true := by
  intro a b
  simp only [latencyDesc, Bool.or_eq_true, decide_eq_true_eq]
  exact le_total b.latency a.latency

lemma aggregatorInv_empty : AggregatorInv emptyInteractions := by
  refine ⟨by simp [emptyInteractions], by simp [emptyInteractions],
    by simp [InteractionsInv, emptyInteractions], ?_⟩
  intro k i
  simp [emptyInteractions]

lemma admitEntry_inv (s : InteractionState) (e : EventEntry)
    (h : InteractionsInv s) : InteractionsInv (admitEntry s e) := by
  obtain ⟨hnodup, hsync⟩ := h
  unfold admitEntry
  cases hm : s.longestInteractionMap e.interactionId with
  | some i =>
    obtain ⟨hmem, hid⟩ := (hsync e.interactionId i).mp hm
    dsimp only
    have hids : ((s.longestInteractionList.map
          fun j => if j.id = i.id then mergeEntry i e else j).map Interaction.id)
        = s.longestInteractionList.map Interaction.id := by
      rw [List.map_map]
      apply List.map_congr_left
      intro j _
      by_cases hj : j.id = i.id
      · simp only [Function.comp_apply, if_pos hj, mergeEntry_id]
        exact hj.symm
      · simp only [Function.comp_apply, if_neg hj]
    constructor
    · rw [hids]
      exact hnodup
    · intro k j
      dsimp only
      by_cases hk : k = i.id
      · subst hk
        rw [if_pos rfl]
        simp only [Option.some.injEq]
        constructor
        · rintro rfl
          exact ⟨List.mem_map.mpr ⟨i, hmem, by rw [if_pos rfl]⟩, mergeEntry_id i e⟩
        · rintro ⟨hjmem, hjid⟩
          obtain ⟨j0, hj0, hj0e⟩ := List.mem_map.mp hjmem
          by_cases hj0id : j0.id = i.id
          · rw [if_pos hj0id] at hj0e
            exact hj0e
          · rw [if_neg hj0id] at hj0e
            rw [← hj0e] at hjid
            exact absurd hjid hj0id
      · rw [if_neg hk]
        rw [hsync k j]
        constructor
        · rintro ⟨hjmem, hjid⟩
          refine ⟨List.mem_map.mpr ⟨j, hjmem, ?_⟩, hjid⟩
          rw [if_neg]
          intro hc
          exact hk (hjid ▸ hc)
        · rintro ⟨hjmem, hjid⟩
          obtain ⟨j0, hj0, hj0e⟩ := List.mem_map.mp hjmem
          by_cases hj0id : j0.id = i.id
          · rw [if_pos hj0id] at hj0e
            exfalso
            apply hk
            rw [← hjid, ← hj0e, mergeEntry_id]
          · rw [if_neg hj0id] at hj0e
            rw [← hj0e] at hjid ⊢
            exact ⟨hj0, hjid⟩
  | none =>
    have hfresh : ∀ j ∈ s.longestInteractionList, j.id ≠ e.interactionId := by
      intro j hj hje
      have hcontra := (hsync e.interactionId j).mpr ⟨hj, hje⟩
      rw [hm] at hcontra
      exact Option.noConfusion hcontra
    dsimp only
    constructor
    · rw [List.map_append, List.nodup_append]
      refine ⟨hnodup, List.nodup_singleton _, ?_⟩
      intro a ha hb
      simp only [List.map_cons, List.map_nil, List.mem_singleton] at hb
      obtain ⟨j, hj, hje⟩ := List.mem_map.mp ha
      exact hfresh j hj (hje.trans hb)
    · intro k j
      dsimp only
      by_cases hk : k = e.interactionId
      · subst hk
        rw [if_pos rfl]
        simp only [Option.some.injEq]
        constructor
        · rintro rfl
          exact ⟨List.mem_append.mpr (Or.inr (List.mem_singleton.mpr rfl)), rfl⟩
        · rintro ⟨hjmem, hjid⟩
          rcases List.mem_append.mp hjmem with hl | hr
          · exact absurd hjid (hfresh j hl)
          · exact (List.mem_singleton.mp hr).symm
      · rw [if_neg hk]
        rw [hsync k j]
        constructor
        · rintro ⟨hjmem, hjid⟩
          exact ⟨List.mem_append.mpr (Or.inl hjmem), hjid⟩
        · rintro ⟨hjmem, hjid⟩
          rcases List.mem_append.mp hjmem with hl | hr
          · exact ⟨hl, hjid⟩
          · have hnid : j.id = e.interactionId := by
              rw [List.mem_singleton.mp hr]
            exact absurd (hjid.symm.trans hnid) hk

lemma sortAndTrim_inv (s : InteractionState) (h : InteractionsInv s) :
    AggregatorInv (sortAndTrim s) := by
  obtain ⟨hnodup, hsync⟩ := h
  unfold sortAndTrim
  dsimp only
  have hperm : (s.longestInteractionList.mergeSort latencyDesc).Perm
      s.longestInteractionList :=
    List.mergeSort_perm s.longestInteractionList latencyDesc
  have hpair : (s.longestInteractionList.mergeSort latencyDesc).Pairwise
      (fun a b => b.latency ≤ a.latency) := by
    have hp := List.sorted_mergeSort latencyDesc_trans latencyDesc_total
      s.longestInteractionList
    exact hp.imp (fun hab => by simpa [latencyDesc] using hab)
  have hnodup' : ((s.longestInteractionList.mergeSort latencyDesc).map
      Interaction.id).Nodup :=
    ((hperm.map Interaction.id).symm).nodup hnodup
  have hmem : ∀ j : Interaction,
      j ∈ s.longestInteractionList.mergeSort latencyDesc ↔
        j ∈ s.longestInteractionList :=
    fun j => hperm.mem_iff
  set sorted := s.longestInteractionList.mergeSort latencyDesc with hsorted
  have hdisj : ∀ k : Nat,
      (∃ x ∈ sorted.take MAX_INTERACTIONS_TO_CONSIDER, x.id = k) →
      (∃ x ∈ sorted.drop MAX_INTERACTIONS_TO_CONSIDER, x.id = k) → False := by
    rintro k ⟨x, hx, hxk⟩ ⟨y, hy, hyk⟩
    have hsplit : sorted.map Interaction.id
        = (sorted.take MAX_INTERACTIONS_TO_CONSIDER).map Interaction.id
          ++ (sorted.drop MAX_INTERACTIONS_TO_CONSIDER).map Interaction.id := by
      rw [← List.map_append, List.take_append_drop]
    rw [hsplit, List.nodup_append] at hnodup'
    exact hnodup'.2.2 (List.mem_map.mpr ⟨x, hx, hxk⟩) (List.mem_map.mpr ⟨y, hy, hyk⟩)
  split
  · rename_i hlong
    refine ⟨?_, ?_, ?_, ?_⟩
    · rw [List.length_take]
      exact min_le_left _ _
    · exact List.Pairwise.sublist (List.take_sublist _ _) hpair
    · rw [List.map_take]
      exact List.Nodup.sublist (List.take_sublist _ _) hnodup'
    · intro k j
      dsimp only
      constructor
      · intro hmk
        by_cases hany :
            ((sorted.drop MAX_INTERACTIONS_TO_CONSIDER).any fun i => decide (i.id = k)) = true
        · rw [if_pos hany] at hmk
          exact Option.noConfusion hmk
        · rw [if_neg hany] at hmk
          obtain ⟨hjmem, hjid⟩ := (hsync k j).mp hmk
          rw [← hmem j] at hjmem
          have hjsplit := List.mem_append.mp
            ((List.take_append_drop MAX_INTERACTIONS_TO_CONSIDER sorted) ▸ hjmem)
          rcases hjsplit with htake | hdrop
          · exact ⟨htake, hjid⟩
          · exact absurd (List.any_eq_true.mpr ⟨j, hdrop, by simp [hjid]⟩) hany
      · rintro ⟨hjmem, hjid⟩
        rw [if_neg]
        · exact (hsync k j).mpr ⟨(hmem j).mp (List.take_subset _ _ hjmem), hjid⟩
        · intro hany
          obtain ⟨x, hx, hxk⟩ := List.any_eq_true.mp hany
          simp only [decide_eq_true_eq] at hxk
          exact hdisj k ⟨j, hjmem, hjid⟩ ⟨x, hx, hxk⟩
  · rename_i hshort
    refine ⟨Nat.le_of_not_lt hshort, hpair, hnodup', ?_⟩
    intro k j
    dsimp only
    rw [hsync k j]
    constructor
    · rintro ⟨hjmem, hjid⟩
      exact ⟨(hmem j).mpr hjmem, hjid⟩
    · rintro ⟨hjmem, hjid⟩
      exact ⟨(hmem j).mp hjmem, hjid⟩

lemma processInteractionEntry_inv (s : InteractionState) (e : EventEntry)
    (h : AggregatorInv s) : AggregatorInv (processInteractionEntry s e) := by
  unfold processInteractionEntry
  split
  · exact h
  · split
    · exact sortAndTrim_inv (admitEntry s e) (admitEntry_inv s e h.2.2)
    · exact h

lemma stepAggregator_inv (s : InteractionState) (op : AggregatorOp)
    (h : AggregatorInv s) : AggregatorInv (stepAggregator s op) := by
  cases op with
  | process e => exact processInteractionEntry_inv s e h
  | reset => exact aggregatorInv_empty

lemma runAggregator_inv (ops : List AggregatorOp) : AggregatorInv (runAggregator ops) := by
  unfold runAggregator
  have hfold : ∀ (ops : List AggregatorOp) (s : InteractionState),
      AggregatorInv s → AggregatorInv (ops.foldl stepAggregator s) := by
    intro ops
    induction ops with
    | nil => intro s hs; exact hs
    | cons op rest ih =>
      intro s hs
      exact ih _ (stepAggregator_inv s op hs)
  exact hfold ops emptyInteractions aggregatorInv_empty

/-- C6: over every interleaving of `processInteractionEntry` and
`resetInteractions` calls from startup, the retained
`longestInteractionList` always has length at most 10 and is always sorted
in descending order of latency. -/
theorem c6_retained_list_bounded_and_sorted (ops : List AggregatorOp) :
    (runAggregator ops).longestInteractionList.length ≤ 10 ∧
    (runAggregator ops).longestInteractionList.Pairwise
      (fun a b => b.latency ≤ a.latency) :=
  ⟨(runAggregator_inv ops).1, (runAggregator_inv ops).2.1⟩

/-- C10: after every interleaving of `processInteractionEntry` and
`resetInteractions` calls, `longestInteractionMap` and
`longestInteractionList` are in sync: every retained interaction is in the
map under its own id (and retained ids are duplicate-free, so exactly once),
and every map entry keys the id of an interaction of the list to that same
interaction — so evicting an interaction from the list (truncation past 10,
or a reset) always removed its map entry. -/
theorem c10_map_list_in_sync (ops : List AggregatorOp) :
    (∀ i ∈ (runAggregator ops).longestInteractionList,
      (runAggregator ops).longestInteractionMap i.id = some i) ∧
    (∀ k i, (runAggregator ops).longestInteractionMap k = some i →
      i ∈ (runAggregator ops).longestInteractionList ∧ i.id = k) ∧
    ((runAggregator ops).longestInteractionList.map Interaction.id).Nodup := by
  obtain ⟨-, -, hnodup, hsync⟩ := runAggregator_inv ops
  exact ⟨fun i hi => (hsync i.id i).mpr ⟨hi, rfl⟩,
    fun k i hk => (hsync k i).mp hk, hnodup⟩

lemma int_idx_eq (len q : Nat) (hlen : 0 < len) :
    (min ((len : Int) - 1) (q : Int)).toNat = min (len - 1) q ∧
    0 ≤ min ((len : Int) - 1) (q : Int) := by
  constructor <;> omega

/-- C7: `estimateP98LongestInteraction` returns nothing (`undefined`) when no
interactions are retained — the candidate index is then `-1`, and the JS
array access at `-1` yields `undefined` rather than touching any element —
and for a nonempty retained list it returns exactly the interaction at index
`min(retainedCount - 1, floor(count / 50))`, an index always within
`[0, retainedCount - 1]`, even when the navigation interaction count is 0. -/
theorem c7_estimate_p98_safe (list : List Interaction) (count : Nat) :
    (list = [] → estimateP98LongestInteraction list count = none) ∧
    (∀ h : list ≠ [],
      estimateP98LongestInteraction list count
        = some (list.get ⟨min (list.length - 1) (count / 50),
            lt_of_le_of_lt (min_le_left _ _)
              (Nat.sub_lt (List.length_pos.mpr h) one_pos)⟩)) := by
  constructor
  · rintro rfl
    unfold estimateP98LongestInteraction
    dsimp only
    rw [dif_neg]
    rintro ⟨h0, -⟩
    simp only [List.length_nil, Nat.cast_zero, zero_sub] at h0
    have hmin := min_le_left (-1 : Int) ((count / 50 : Nat) : Int)
    omega
  · intro h
    have hlen : 0 < list.length := List.length_pos.mpr h
    unfold estimateP98LongestInteraction
    dsimp only
    have haux := int_idx_eq list.length (count / 50) hlen
    have hlt : (min ((list.length : Int) - 1) ((count / 50 : Nat) : Int)).toNat
        < list.length := by
      rw [haux.1]
      exact lt_of_le_of_lt (min_le_left _ _) (Nat.sub_lt hlen one_pos)
    rw [dif_pos ⟨haux.2, hlt⟩]
    have hget : ∀ (n m : Nat) (hn : n < list.length) (hm : m < list.length), n = m →
        (some (list.get ⟨n, hn⟩) : Option Interaction) = some (list.get ⟨m, hm⟩) := by
      intro n m hn hm hnm
      subst hnm
      rfl
    exact hget _ _ _ _ haux.1

/-- A concrete retained interaction for the C7 witness. -/
def sampleInteraction : Interaction := ⟨7, 40, []⟩

/-- C7 witness: with one retained interaction and an epoch interaction count
of 0, the candidate index is `min(0, 0) = 0` and the single interaction is
returned; with no retained interactions the result is `undefined`. -/
theorem c7_estimate_p98_safe_witness :
    ([sampleInteraction] ≠ ([] : List Interaction)) ∧
    estimateP98LongestInteraction [sampleInteraction] 0 = some sampleInteraction ∧
    estimateP98LongestInteraction [] 0 = none := by
  refine ⟨by simp, ?_, (c7_estimate_p98_safe [] 0).1 rfl⟩
  have h := (c7_estimate_p98_safe [sampleInteraction] 0).2 (by simp)
  simpa using h
